import Mathlib

/-
Shallow embedding of the buffer/cursor engine in src/ruby/ext/sereal/buffer.h.

Modelling conventions:
* `u32` fields and arithmetic are represented by `Nat` together with explicit
  reduction `% U32` (`U32 = 2^32`) exactly where the C code performs 32-bit
  unsigned addition/subtraction.
* `s->data` is the list of valid bytes (the C array's prefix `data[0..size)`);
  bytes are `Nat`s.  `rsize` (the reserved capacity) is tracked as a plain
  counter, since reserved-but-unwritten bytes are never observable.
* `s->fd` (the streaming source) is a list of chunks; each `read(fd,buf,req)`
  consumes the next chunk and transfers at most `req` of its bytes.  An
  exhausted source or an empty chunk models `read` returning `rc <= 0`.
* `s_raise` (a longjmp into the Ruby exception machinery) is modelled by
  `Except`: an operation that raises returns `Except.error`.
* `s_alloc_or_raise`/`s_realloc_or_raise` are assumed to succeed (allocation
  failure aborts the whole operation and is not observable otherwise).
-/

namespace Sereal

/-- Modulus of the C `u32` type: 2^32. -/
def U32 : Nat := 4294967296

/-- The `sereal_t` buffer state: valid bytes `data`, write high-water mark
`size`, reserved capacity `rsize`, cursor `pos`, the FLAG_STREAM bit
`stream`, and the remaining chunks of the backing descriptor `source`. -/
structure Buf where
  data : List Nat
  size : Nat
  rsize : Nat
  pos : Nat
  stream : Bool
  source : List (List Nat)
deriving Repr, DecidableEq

/-- 32-bit unsigned subtraction `a - b` (two's-complement wraparound). -/
def usub (a b : Nat) : Nat := (a + (U32 - b % U32)) % U32

/-- `s_create`: a fresh zeroed buffer (Owned, Bounded). -/
def mkEmpty : Buf := ⟨[], 0, 0, 0, false, []⟩

/-- A fresh buffer configured with FLAG_STREAM and a backing source. -/
def mkStream (src : List (List Nat)) : Buf := ⟨[], 0, 0, 0, true, src⟩

/-- `COPY(src, dst+off, len)`: memcpy of `src` into `dst` at offset `off`. -/
def memCopy (dst : List Nat) (off : Nat) (src : List Nat) : List Nat :=
  dst.take off ++ src ++ dst.drop (off + src.length)

/-- `s_alloc(s, len)`: grow the reservation unless `rsize > size + len`
(u32 compare); growth reallocates to `size + len + 512` bytes, preserving
the existing contents. -/
def sAlloc (s : Buf) (len : Nat) : Buf :=
  if (s.size + len) % U32 < s.rsize then s
  else { s with rsize := (s.size + len + 512) % U32 }

/-- `s_append(s, suffix, len)`: ensure room, copy `suffix` at offset `size`,
then `size += len; pos += len` (u32). -/
def sAppend (s : Buf) (suffix : List Nat) : Buf :=
  let s1 := sAlloc s suffix.length
  { s1 with data := memCopy s1.data s1.size suffix,
            size := (s1.size + suffix.length) % U32,
            pos := (s1.pos + suffix.length) % U32 }

/-- The scratch-buffer byte count requested by each `s_read_stream`
iteration: `s->size - req` computed in u32 (the source passes this to
`s_alloc_or_raise`). -/
def scratchAlloc (sz req : Nat) : Nat := usub sz req

/-- The `while (s->size < end)` loop of `s_read_stream`, recursing on the
remaining source chunks.  Each iteration requests `req = end - size` bytes;
`rc <= 0` (exhausted source or empty chunk) aborts with `false`.  The third
component is a ghost trace of the scratch allocation sizes requested. -/
def sReadLoopAux (src : List (List Nat)) (s : Buf) (endv : Nat) :
    Bool × Buf × List Nat :=
  match src with
  | [] => if s.size < endv then (false, s, []) else (true, s, [])
  | c :: rest =>
    if s.size < endv then
      let req := endv - s.size
      let alloc := scratchAlloc s.size req
      let chunk := c.take req
      if chunk.length = 0 then (false, { s with source := rest }, [alloc])
      else
        let r := sReadLoopAux rest (sAppend { s with source := rest } chunk) endv
        (r.1, r.2.1, alloc :: r.2.2)
    else (true, s, [])

/-- `s_read_stream(s, end)`: save `pos`, run the fill loop; on success
(`return 1`) restore `pos`; on failure (`return -1`) the early return skips
the restore. -/
def sReadStream (s : Buf) (endv : Nat) : Bool × Buf × List Nat :=
  let pos := s.pos
  let r := sReadLoopAux s.source s endv
  if r.1 then (true, { r.2.1 with pos := pos }, r.2.2) else r

/-- The exceptions raised by the bounds guard: `rb_eRangeError` with the
out-of-bounds context `(pos, req, size)`, or with the failed stream request
size. -/
inductive BufErr where
  | outOfRange (off len sz : Nat)
  | streamFailed (req : Nat)
deriving Repr, DecidableEq

/-- `s_get_p_at_pos(s, pos, req)`: if `pos + req >= size` (u32 add), a
streaming buffer pulls up to `pos + req + 1` and raises only on pull
failure, a bounded buffer raises immediately; otherwise return the pointer
(modelled as the offset) with the state untouched. -/
def sGetPAtPos (s : Buf) (pos req : Nat) : Except BufErr (Nat × Buf) :=
  if s.size ≤ (pos + req) % U32 then
    if s.stream then
      let r := sReadStream s ((pos + req + 1) % U32)
      if r.1 then Except.ok (pos, r.2.1) else Except.error (BufErr.streamFailed req)
    else Except.error (BufErr.outOfRange pos req s.size)
  else Except.ok (pos, s)

/-- `s_get_p_at_pos_bang`: advancing variant, `s->pos += req` after the
guard. -/
def sGetPAtPosBang (s : Buf) (pos req : Nat) : Except BufErr (Nat × Buf) :=
  match sGetPAtPos s pos req with
  | Except.ok (p, s1) => Except.ok (p, { s1 with pos := (s1.pos + req) % U32 })
  | Except.error e => Except.error e

/-- `s_get_p(s)`: pointer at the cursor, `req = 0`. -/
def sGetP (s : Buf) : Except BufErr (Nat × Buf) := sGetPAtPos s s.pos 0

/-- `s_get_u8`: the byte at the cursor, non-advancing. -/
def sGetU8 (s : Buf) : Except BufErr (Nat × Buf) :=
  match sGetP s with
  | Except.ok (p, s1) => Except.ok (s1.data.getD p 0, s1)
  | Except.error e => Except.error e

/-- `s_get_u8_bang`: `s_get_u8` then `s->pos++`. -/
def sGetU8Bang (s : Buf) : Except BufErr (Nat × Buf) :=
  match sGetU8 s with
  | Except.ok (v, s1) => Except.ok (v, { s1 with pos := (s1.pos + 1) % U32 })
  | Except.error e => Except.error e

/-- `s_get_u32_bang`: guard with `sizeof(u32) - 1 = 3`, return the 4 bytes
at the cursor (the referent of the casted pointer), advance by 4. -/
def sGetU32Bang (s : Buf) : Except BufErr (List Nat × Buf) :=
  match sGetPAtPos s s.pos (4 - 1) with
  | Except.ok (p, s1) =>
      Except.ok ((s1.data.drop p).take 4, { s1 with pos := (s1.pos + 4) % U32 })
  | Except.error e => Except.error e

/-- `s_get_float_bang`: guard with `sizeof(float) - 1 = 3`, advance by 4. -/
def sGetFloatBang (s : Buf) : Except BufErr (List Nat × Buf) :=
  match sGetPAtPos s s.pos (4 - 1) with
  | Except.ok (p, s1) =>
      Except.ok ((s1.data.drop p).take 4, { s1 with pos := (s1.pos + 4) % U32 })
  | Except.error e => Except.error e

/-- `s_get_double_bang`: guard with `sizeof(double) - 1 = 7`, advance by 8. -/
def sGetDoubleBang (s : Buf) : Except BufErr (List Nat × Buf) :=
  match sGetPAtPos s s.pos (8 - 1) with
  | Except.ok (p, s1) =>
      Except.ok ((s1.data.drop p).take 8, { s1 with pos := (s1.pos + 8) % U32 })
  | Except.error e => Except.error e

/-- `s_get_long_double_bang`: guard with `sizeof(long double) - 1 = 15`
(16-byte `long double`, as on x86-64), advance by 16. -/
def sGetLongDoubleBang (s : Buf) : Except BufErr (List Nat × Buf) :=
  match sGetPAtPos s s.pos (16 - 1) with
  | Except.ok (p, s1) =>
      Except.ok ((s1.data.drop p).take 16, { s1 with pos := (s1.pos + 16) % U32 })
  | Except.error e => Except.error e

/-- `s_shift_position_bang(s, len)`: `s->pos += len` (u32), return `len`.
No bounds check, cannot raise (total function). -/
def sShiftPositionBang (s : Buf) (len : Nat) : Nat × Buf :=
  (len, { s with pos := (s.pos + len) % U32 })

/-- `s_shift_left(s)`: `left = size - pos` (u32); if zero, release storage
and zero `size`/`rsize`; otherwise keep exactly the `left` bytes starting
at `pos` and set `size = rsize = left`.  `pos` is not written. -/
def sShiftLeft (s : Buf) : Buf :=
  let left := usub s.size s.pos
  if left = 0 then { s with data := [], size := 0, rsize := 0 }
  else { s with data := (s.data.drop s.pos).take left, size := left, rsize := left }

/-- The caller-visible operations of the engine, for sequencing claims. -/
inductive Op where
  | append (bs : List Nat)
  | readU8
  | readU32
  | readF32
  | readF64
  | readLD
  | readAt (off len : Nat)
  | shift (n : Nat)
  | compact
deriving Repr, DecidableEq

/-- One operation applied to a buffer; `none` means the call raised. -/
def step (s : Buf) : Op → Option Buf
  | Op.append bs => some (sAppend s bs)
  | Op.readU8 =>
      match sGetU8Bang s with
      | Except.ok (_, s1) => some s1
      | Except.error _ => none
  | Op.readU32 =>
      match sGetU32Bang s with
      | Except.ok (_, s1) => some s1
      | Except.error _ => none
  | Op.readF32 =>
      match sGetFloatBang s with
      | Except.ok (_, s1) => some s1
      | Except.error _ => none
  | Op.readF64 =>
      match sGetDoubleBang s with
      | Except.ok (_, s1) => some s1
      | Except.error _ => none
  | Op.readLD =>
      match sGetLongDoubleBang s with
      | Except.ok (_, s1) => some s1
      | Except.error _ => none
  | Op.readAt off len =>
      match sGetPAtPosBang s off len with
      | Except.ok (_, s1) => some s1
      | Except.error _ => none
  | Op.shift n => some (sShiftPositionBang s n).2
  | Op.compact => some (sShiftLeft s)

/-- Run a sequence of operations; a raise aborts the sequence. -/
def run (s : Buf) : List Op → Option Buf
  | [] => some s
  | op :: ops =>
      match step s op with
      | some s1 => run s1 ops
      | none => none

/-- Operations that touch the buffer only through the cursor-based
append/typed-read path. -/
def cursorOp : Op → Bool
  | Op.append _ => true
  | Op.readU8 => true
  | Op.readU32 => true
  | Op.readF32 => true
  | Op.readF64 => true
  | Op.readLD => true
  | _ => false

/-- Total number of bytes appended by a sequence of operations. -/
def appendTotal : List Op → Nat
  | [] => 0
  | Op.append bs :: ops => bs.length + appendTotal ops
  | _ :: ops => appendTotal ops

/-! Concrete states used by witnesses and counterexamples. -/

/-- A bounded buffer holding five bytes with the cursor at the start
(the state a decoder sees after wrapping an existing payload). -/
def exBounded : Buf := ⟨[1, 2, 3, 4, 5], 5, 5, 0, false, []⟩

/-- A bounded buffer with one consumed byte (`pos = 1`) and one pending. -/
def exPending : Buf := ⟨[10, 20], 2, 2, 1, false, []⟩

/-- A streaming buffer whose source yields one byte and then reports
end-of-data. -/
def exStreamFail : Buf := ⟨[], 0, 0, 0, true, [[65], []]⟩

/-- A streaming buffer whose source yields two bytes at once. -/
def exStreamOk : Buf := ⟨[], 0, 0, 0, true, [[65, 66]]⟩

/-- A bounded buffer with 17 valid bytes and the cursor at offset 1, large
enough for every fixed-width read. -/
def exReadable : Buf :=
  ⟨[0, 0, 0, 0, 0, 0, 0, 0, 0, 0, 0, 0, 0, 0, 0, 0, 0], 17, 17, 1, false, []⟩

/-- A bounded buffer whose slack `rsize - size` is exactly 4. -/
def exSlackEq : Buf := ⟨[], 0, 4, 0, false, []⟩

/-- A bounded buffer with cursor 0 and one valid byte. -/
def exMidCursor : Buf := ⟨[9], 1, 1, 0, false, []⟩

/-! Helper lemmas about the u32 arithmetic and the field-level behaviour of
the operations. -/

lemma U32_pos : 0 < U32 := by decide

lemma umod_small {a : Nat} (h : a < U32) : a % U32 = a := Nat.mod_eq_of_lt h

lemma usub_of_le {a b : Nat} (hba : b ≤ a) (ha : a < U32) : usub a b = a - b := by
  unfold usub
  rw [umod_small (lt_of_le_of_lt hba ha)]
  have h1 : a + (U32 - b) = U32 + (a - b) := by omega
  rw [h1, Nat.add_mod_left, umod_small (by omega)]

lemma usub_of_lt {a b : Nat} (hab : a < b) (hb : b < U32) : usub a b = a + (U32 - b) := by
  unfold usub
  rw [umod_small hb, umod_small (by omega)]

lemma sAlloc_data (s : Buf) (n : Nat) : (sAlloc s n).data = s.data := by
  unfold sAlloc; split <;> rfl

lemma sAlloc_size (s : Buf) (n : Nat) : (sAlloc s n).size = s.size := by
  unfold sAlloc; split <;> rfl

lemma sAlloc_pos (s : Buf) (n : Nat) : (sAlloc s n).pos = s.pos := by
  unfold sAlloc; split <;> rfl

lemma sAlloc_stream (s : Buf) (n : Nat) : (sAlloc s n).stream = s.stream := by
  unfold sAlloc; split <;> rfl

lemma sAlloc_source (s : Buf) (n : Nat) : (sAlloc s n).source = s.source := by
  unfold sAlloc; split <;> rfl

lemma sAlloc_rsize_ge (s : Buf) (n : Nat) (h : s.size + n + 512 < U32) :
    s.size + n ≤ (sAlloc s n).rsize := by
  unfold sAlloc
  rw [umod_small (by omega)]
  split
  · omega
  · simp only []
    rw [umod_small h]
    omega

lemma memCopy_at_length (d : List Nat) (src : List Nat) :
    memCopy d d.length src = d ++ src := by
  unfold memCopy
  rw [List.take_length, List.drop_eq_nil_of_le (by omega), List.append_nil]

lemma sAppend_source (s : Buf) (bs : List Nat) : (sAppend s bs).source = s.source := by
  unfold sAppend
  simp only []
  rw [sAlloc_source]

lemma sAppend_stream (s : Buf) (bs : List Nat) : (sAppend s bs).stream = s.stream := by
  unfold sAppend
  simp only []
  rw [sAlloc_stream]

lemma sAppend_data (s : Buf) (bs : List Nat) (hlen : s.data.length = s.size) :
    (sAppend s bs).data = s.data ++ bs := by
  unfold sAppend
  simp only []
  rw [sAlloc_data, sAlloc_size, ← hlen, memCopy_at_length]

lemma sAppend_size (s : Buf) (bs : List Nat) (h : s.size + bs.length < U32) :
    (sAppend s bs).size = s.size + bs.length := by
  unfold sAppend
  simp only []
  rw [sAlloc_size, umod_small h]

lemma sAppend_pos (s : Buf) (bs : List Nat) (h : s.pos + bs.length < U32) :
    (sAppend s bs).pos = s.pos + bs.length := by
  unfold sAppend
  simp only []
  rw [sAlloc_pos, umod_small h]

lemma sAppend_rsize_ge (s : Buf) (bs : List Nat)
    (h : s.size + bs.length + 512 < U32) :
    s.size + bs.length ≤ (sAppend s bs).rsize := by
  unfold sAppend
  simp only []
  exact sAlloc_rsize_ge s bs.length h

lemma Buf.eq_of_fields {a b : Buf} (h1 : a.data = b.data) (h2 : a.size = b.size)
    (h3 : a.rsize = b.rsize) (h4 : a.pos = b.pos) (h5 : a.stream = b.stream)
    (h6 : a.source = b.source) : a = b := by
  cases a; cases b; simp_all

/-- On a bounded buffer the guard reduces to the plain range test. -/
lemma sGetPAtPos_bounded (s : Buf) (pos req : Nat) (hb : s.stream = false)
    (h : pos + req < U32) :
    sGetPAtPos s pos req =
      if s.size ≤ pos + req then Except.error (BufErr.outOfRange pos req s.size)
      else Except.ok (pos, s) := by
  unfold sGetPAtPos
  rw [umod_small h, hb]
  split <;> rfl

/-- Field-level description of `s_shift_left` on a state satisfying the
cursor invariant: the surviving bytes are `data[pos..size)`, `size` and
`rsize` both become `size - pos`, and `pos` is left as it was. -/
lemma sShiftLeft_spec (s : Buf) (h1 : s.data.length = s.size)
    (h2 : s.pos ≤ s.size) (h3 : s.size < U32) :
    (sShiftLeft s).data = s.data.drop s.pos ∧
    (sShiftLeft s).size = s.size - s.pos ∧
    (sShiftLeft s).rsize = s.size - s.pos ∧
    (sShiftLeft s).pos = s.pos ∧
    (sShiftLeft s).stream = s.stream ∧
    (sShiftLeft s).source = s.source := by
  unfold sShiftLeft
  simp only []
  rw [usub_of_le h2 h3]
  by_cases h0 : s.size - s.pos = 0
  · rw [if_pos h0]
    have hps : s.pos = s.size := by omega
    refine ⟨?_, by simp [h0], by simp [h0], rfl, rfl, rfl⟩
    rw [hps, ← h1, List.drop_length]
  · rw [if_neg h0]
    refine ⟨?_, rfl, rfl, rfl, rfl, rfl⟩
    have hlen : (s.data.drop s.pos).length = s.size - s.pos := by
      rw [List.length_drop, h1]
    rw [← hlen, List.take_length]

/-- Field-level description of one run of the `s_read_stream` loop: the
data only grows (earlier bytes are kept), `size` never exceeds
`max size end`, the cursor moves forward by exactly the number of appended
bytes, and a `true` result guarantees `end ≤ size`. -/
lemma sReadLoopAux_spec (src : List (List Nat)) :
    ∀ (s : Buf) (endv : Nat), s.data.length = s.size → s.pos ≤ s.size →
    endv < U32 →
    (sReadLoopAux src s endv).2.1.data.length = (sReadLoopAux src s endv).2.1.size ∧
    s.size ≤ (sReadLoopAux src s endv).2.1.size ∧
    (sReadLoopAux src s endv).2.1.size ≤ max s.size endv ∧
    (sReadLoopAux src s endv).2.1.pos =
      s.pos + ((sReadLoopAux src s endv).2.1.size - s.size) ∧
    (sReadLoopAux src s endv).2.1.data.take s.size = s.data ∧
    ((sReadLoopAux src s endv).1 = true → endv ≤ (sReadLoopAux src s endv).2.1.size) := by
  induction src with
  | nil =>
    intro s endv h1 h2 h3
    unfold sReadLoopAux
    split
    · dsimp only
      refine ⟨h1, le_refl _, le_max_left _ _, by omega, ?_, by intro h; simp_all⟩
      rw [← h1, List.take_length]
    · dsimp only
      refine ⟨h1, le_refl _, le_max_left _ _, by omega, ?_, by intro _; omega⟩
      rw [← h1, List.take_length]
  | cons c rest ih =>
    intro s endv h1 h2 h3
    unfold sReadLoopAux
    by_cases hlt : s.size < endv
    · rw [if_pos hlt]
      simp only []
      by_cases hc : (c.take (endv - s.size)).length = 0
      · rw [if_pos hc]
        dsimp only
        refine ⟨h1, le_refl _, le_max_left _ _, by omega, ?_, by intro h; simp_all⟩
        rw [← h1, List.take_length]
      · rw [if_neg hc]
        set chunk := c.take (endv - s.size) with hchunk
        have hclen : chunk.length ≤ endv - s.size := by
          rw [hchunk]; exact List.length_take_le _ _
        set s0 : Buf := { s with source := rest } with hs0
        have e1 : s0.data.length = s0.size := h1
        have hszw : s0.size + chunk.length < U32 := by
          simp only [hs0]; omega
        have hposw : s0.pos + chunk.length < U32 := by
          simp only [hs0]; omega
        have hdata : (sAppend s0 chunk).data = s.data ++ chunk :=
          sAppend_data s0 chunk e1
        have hsize : (sAppend s0 chunk).size = s.size + chunk.length :=
          sAppend_size s0 chunk hszw
        have hpos : (sAppend s0 chunk).pos = s.pos + chunk.length :=
          sAppend_pos s0 chunk hposw
        have e2 : (sAppend s0 chunk).data.length = (sAppend s0 chunk).size := by
          rw [hdata, hsize, List.length_append, h1]
        have e3 : (sAppend s0 chunk).pos ≤ (sAppend s0 chunk).size := by
          rw [hpos, hsize]; omega
        obtain ⟨i1, i2, i3, i4, i5, i6⟩ := ih (sAppend s0 chunk) endv e2 e3 h3
        simp only []
        refine ⟨i1, ?_, ?_, ?_, ?_, i6⟩
        · omega
        · have : max (sAppend s0 chunk).size endv = endv := by
            rw [hsize]; omega
          rw [this] at i3
          omega
        · rw [i4, hpos, hsize]
          omega
        · have htake : (sReadLoopAux rest (sAppend s0 chunk) endv).2.1.data.take
              (sAppend s0 chunk).size = (sAppend s0 chunk).data := i5
          have hs' : s.size ≤ (sAppend s0 chunk).size := by rw [hsize]; omega
          calc (sReadLoopAux rest (sAppend s0 chunk) endv).2.1.data.take s.size
              = ((sReadLoopAux rest (sAppend s0 chunk) endv).2.1.data.take
                  (sAppend s0 chunk).size).take s.size := by
                rw [List.take_take, min_eq_left hs']
            _ = ((s.data ++ chunk).take s.size) := by rw [htake, hdata]
            _ = s.data := by rw [← h1, List.take_left]
    · rw [if_neg hlt]
      dsimp only
      refine ⟨h1, le_refl _, le_max_left _ _, by omega, ?_, by intro _; omega⟩
      rw [← h1, List.take_length]

/-! Claim theorems. -/

/-- C8: `s_shift_position_bang` unconditionally sets `pos := pos + n` in
32-bit unsigned arithmetic and returns `n`; it performs no bounds check and
cannot raise (it is a total function in this embedding), and in particular
it can leave `pos > size`, as on the empty buffer with `n = 1`. -/
theorem c8_shift_cursor (s : Buf) (n : Nat) :
    (sShiftPositionBang s n).1 = n ∧
    (sShiftPositionBang s n).2.pos = (s.pos + n) % U32 ∧
    (sShiftPositionBang s n).2.size = s.size ∧
    (sShiftPositionBang s n).2.data = s.data ∧
    (sShiftPositionBang s n).2.rsize = s.rsize ∧
    (sShiftPositionBang mkEmpty 1).2.size < (sShiftPositionBang mkEmpty 1).2.pos :=
  ⟨rfl, rfl, rfl, rfl, rfl, by decide⟩

/-- C5 counterexample: with `size = 0`, `capacity = 4` the slack equals the
request `n = 4`, yet `s_alloc` grows the buffer to `0 + 4 + 512 = 516`
bytes instead of skipping growth as the claim states (the skip test
`rsize > size + len` is strict). -/
theorem c5_counterexample :
    (sAlloc exSlackEq 4).rsize = 516 ∧ sAlloc exSlackEq 4 ≠ exSlackEq := by
  constructor <;> decide

/-- C5 (amended): `s_alloc` guarantees `capacity ≥ size + n` (absent u32
overflow); growth is skipped exactly when the slack strictly exceeds `n`
(`rsize > size + n`), and when growth happens the new reservation is
exactly `size + n + 512`; growth never changes `data`, `size` or `pos`. -/
theorem c5_growth_policy (s : Buf) (n : Nat) (h : s.size + n + 512 < U32) :
    s.size + n ≤ (sAlloc s n).rsize ∧
    (s.size + n < s.rsize → sAlloc s n = s) ∧
    (s.rsize ≤ s.size + n → (sAlloc s n).rsize = s.size + n + 512) ∧
    (sAlloc s n).data = s.data ∧ (sAlloc s n).size = s.size ∧
    (sAlloc s n).pos = s.pos := by
  refine ⟨sAlloc_rsize_ge s n h, ?_, ?_, sAlloc_data s n, sAlloc_size s n,
    sAlloc_pos s n⟩
  · intro hlt
    unfold sAlloc
    rw [umod_small (by omega), if_pos hlt]
  · intro hge
    unfold sAlloc
    rw [umod_small (by omega), if_neg (by omega)]
    dsimp only
    rw [umod_small h]

theorem c5_witness :
    mkEmpty.size + 1 + 512 < U32 ∧ mkEmpty.size + 1 ≤ (sAlloc mkEmpty 1).rsize :=
  ⟨by decide, (c5_growth_policy mkEmpty 1 (by decide)).1⟩

/-- C7 counterexample: on a buffer with `size = 1` but cursor `pos = 0`,
appending one byte leaves `pos = 1`, not `size + 1 = 2`: `s_append`
advances `pos` from its previous value, not from `size`. -/
theorem c7_counterexample :
    (sAppend exMidCursor [7]).pos ≠ exMidCursor.size + 1 := by decide

/-- C7 (amended): appending `b` to a buffer with `size = s0` stores `b` at
`data[s0 .. s0 + len b)` and increments `size` by `len b`; the cursor is
incremented by `len b` from its previous value (so it ends at
`s0 + len b` only when it started at `s0`, the invariant state of the
encode path). -/
theorem c7_append_spec (s : Buf) (bs : List Nat)
    (h1 : s.data.length = s.size) (h2 : s.size + bs.length < U32)
    (h3 : s.pos + bs.length < U32) :
    (sAppend s bs).data = s.data ++ bs ∧
    (sAppend s bs).data.drop s.size = bs ∧
    (sAppend s bs).size = s.size + bs.length ∧
    (sAppend s bs).pos = s.pos + bs.length := by
  refine ⟨sAppend_data s bs h1, ?_, sAppend_size s bs h2, sAppend_pos s bs h3⟩
  rw [sAppend_data s bs h1, ← h1, List.drop_left]

theorem c7_witness :
    exBounded.data.length = exBounded.size ∧
    (sAppend exBounded [7, 8]).size = exBounded.size + ([7, 8] : List Nat).length :=
  ⟨by decide, (c7_append_spec exBounded [7, 8] (by decide) (by decide)
    (by decide)).2.2.1⟩

/-- C2 counterexample: compacting a buffer with `pos = 1`, `size = 2`
leaves `pos = 1`; `s_shift_left` never writes `pos`, contradicting the
claimed reset to 0. -/
theorem c2_counterexample : (sShiftLeft exPending).pos ≠ 0 := by decide

/-- C2 (amended): for `pos = p ≤ size = s`, `s_shift_left` discards
`data[0..p)`, relocates `data[p..s)` to the start, and sets
`size = capacity = s - p`; `pos` is left unchanged (not reset to 0).  When
`p = s` the storage is released and `size = capacity = 0`, but `pos`
likewise keeps its old value, so the buffer does not return to the
just-created state unless `p = 0`. -/
theorem c2_compact_spec (s : Buf) (h1 : s.data.length = s.size)
    (h2 : s.pos ≤ s.size) (h3 : s.size < U32) :
    (sShiftLeft s).data = s.data.drop s.pos ∧
    (sShiftLeft s).size = s.size - s.pos ∧
    (sShiftLeft s).rsize = s.size - s.pos ∧
    (sShiftLeft s).pos = s.pos ∧
    (s.pos = s.size →
      (sShiftLeft s).data = [] ∧ (sShiftLeft s).size = 0 ∧
      (sShiftLeft s).rsize = 0 ∧ (sShiftLeft s).pos = s.pos) := by
  obtain ⟨d, sz, rs, p, _, _⟩ := sShiftLeft_spec s h1 h2 h3
  refine ⟨d, sz, rs, p, ?_⟩
  intro hps
  refine ⟨?_, by omega, by omega, p⟩
  rw [d, hps, ← h1, List.drop_length]

theorem c2_witness :
    exPending.pos ≤ exPending.size ∧
    (sShiftLeft exPending).size = exPending.size - exPending.pos :=
  ⟨by decide, (c2_compact_spec exPending (by decide) (by decide)
    (by decide)).2.1⟩

/-- C6 counterexample: after compacting `⟨data = [10,20], pos = 1,
size = 2⟩` the cursor is still 1 (not 0), and a second immediate compaction
is not a no-op: it discards the remaining byte and changes `size`, `rsize`
and `data`. -/
theorem c6_counterexample :
    sShiftLeft (sShiftLeft exPending) ≠ sShiftLeft exPending := by decide

/-- C6 (amended): compacting a buffer with `pos = p ≤ size = s` makes the
first `s - p` bytes equal to the old `data[p..s)`; but since `s_shift_left`
leaves `pos` unchanged, a second immediate compaction is a no-op only when
`p = 0` (then the cursor is still 0 and the second pass keeps everything). -/
theorem c6_compact_twice (s : Buf) (h1 : s.data.length = s.size)
    (h2 : s.pos ≤ s.size) (h3 : s.size < U32) :
    (sShiftLeft s).data.take (s.size - s.pos) =
      (s.data.drop s.pos).take (s.size - s.pos) ∧
    (s.pos = 0 → sShiftLeft (sShiftLeft s) = sShiftLeft s) := by
  obtain ⟨d, sz, rs, p, st, so⟩ := sShiftLeft_spec s h1 h2 h3
  refine ⟨by rw [d], ?_⟩
  intro hp0
  have e1 : (sShiftLeft s).data.length = (sShiftLeft s).size := by
    rw [d, sz, List.length_drop, h1]
  have e2 : (sShiftLeft s).pos ≤ (sShiftLeft s).size := by
    rw [p, sz, hp0]
    omega
  have e3 : (sShiftLeft s).size < U32 := by
    rw [sz]
    omega
  obtain ⟨d2, sz2, rs2, p2, st2, so2⟩ := sShiftLeft_spec (sShiftLeft s) e1 e2 e3
  apply Buf.eq_of_fields
  · rw [d2, p, hp0, List.drop_zero]
  · omega
  · omega
  · exact p2
  · exact st2
  · exact so2

theorem c6_witness :
    exPending.pos ≤ exPending.size ∧
    (sShiftLeft exPending).data.take (exPending.size - exPending.pos) =
      (exPending.data.drop exPending.pos).take (exPending.size - exPending.pos) :=
  ⟨by decide, (c6_compact_twice exPending (by decide) (by decide)
    (by decide)).1⟩

lemma bangRead_spec (w : Nat) (hw : 1 ≤ w)
    (f : Buf → Except BufErr (List Nat × Buf))
    (hf : ∀ t, f t =
      match sGetPAtPos t t.pos (w - 1) with
      | Except.ok (p, s1) =>
          Except.ok ((s1.data.drop p).take w, { s1 with pos := (s1.pos + w) % U32 })
      | Except.error e => Except.error e)
    (s : Buf) (hb : s.stream = false) (hU : s.pos + w < U32) :
    ((∃ r, f s = Except.ok r) ↔ s.pos + w ≤ s.size) ∧
    (∀ v t, f s = Except.ok (v, t) →
      t.pos = s.pos + w ∧ t.size = s.size ∧ t.data = s.data ∧
      t.rsize = s.rsize ∧ t.stream = s.stream) := by
  have hg := sGetPAtPos_bounded s s.pos (w - 1) hb (by omega)
  rw [hf s, hg]
  by_cases hle : s.size ≤ s.pos + (w - 1)
  · rw [if_pos hle]
    dsimp only
    constructor
    · constructor
      · rintro ⟨r, hr⟩
        exact absurd hr (by simp)
      · intro h
        omega
    · intro v t ht
      exact absurd ht (by simp)
  · rw [if_neg hle]
    dsimp only
    constructor
    · constructor
      · intro _
        omega
      · intro _
        exact ⟨_, rfl⟩
    · intro v t ht
      simp only [Except.ok.injEq, Prod.mk.injEq] at ht
      obtain ⟨_, htt⟩ := ht
      subst htt
      exact ⟨umod_small hU, rfl, rfl, rfl, rfl⟩

lemma sGetU8Bang_spec (s : Buf) (hb : s.stream = false) (hU : s.pos + 1 < U32) :
    ((∃ r, sGetU8Bang s = Except.ok r) ↔ s.pos + 1 ≤ s.size) ∧
    (∀ v t, sGetU8Bang s = Except.ok (v, t) →
      t.pos = s.pos + 1 ∧ t.size = s.size ∧ t.data = s.data ∧
      t.rsize = s.rsize ∧ t.stream = s.stream) := by
  have hg := sGetPAtPos_bounded s s.pos 0 hb (by omega)
  unfold sGetU8Bang sGetU8 sGetP
  rw [hg]
  by_cases hle : s.size ≤ s.pos + 0
  · rw [if_pos hle]
    dsimp only
    constructor
    · constructor
      · rintro ⟨r, hr⟩
        exact absurd hr (by simp)
      · intro h
        omega
    · intro v t ht
      exact absurd ht (by simp)
  · rw [if_neg hle]
    dsimp only
    constructor
    · constructor
      · intro _
        omega
      · intro _
        exact ⟨_, rfl⟩
    · intro v t ht
      simp only [Except.ok.injEq, Prod.mk.injEq] at ht
      obtain ⟨_, htt⟩ := ht
      subst htt
      exact ⟨umod_small hU, rfl, rfl, rfl, rfl⟩

/-- C9: on a bounded buffer each fixed-width advancing read (`u8`, `u32`,
float, double, long double) passes `sizeof(T) - 1` to the bounds guard, so
it succeeds exactly when `pos + sizeof(T) ≤ size` (a read ending exactly at
the end of the valid region succeeds), and on success advances `pos` by
exactly `sizeof(T)`. -/
theorem c9_fixed_width_reads (s : Buf) (hb : s.stream = false)
    (hU : s.pos + 16 < U32) :
    ((∃ r, sGetU8Bang s = Except.ok r) ↔ s.pos + 1 ≤ s.size) ∧
    (∀ v t, sGetU8Bang s = Except.ok (v, t) → t.pos = s.pos + 1) ∧
    ((∃ r, sGetU32Bang s = Except.ok r) ↔ s.pos + 4 ≤ s.size) ∧
    (∀ v t, sGetU32Bang s = Except.ok (v, t) → t.pos = s.pos + 4) ∧
    ((∃ r, sGetFloatBang s = Except.ok r) ↔ s.pos + 4 ≤ s.size) ∧
    (∀ v t, sGetFloatBang s = Except.ok (v, t) → t.pos = s.pos + 4) ∧
    ((∃ r, sGetDoubleBang s = Except.ok r) ↔ s.pos + 8 ≤ s.size) ∧
    (∀ v t, sGetDoubleBang s = Except.ok (v, t) → t.pos = s.pos + 8) ∧
    ((∃ r, sGetLongDoubleBang s = Except.ok r) ↔ s.pos + 16 ≤ s.size) ∧
    (∀ v t, sGetLongDoubleBang s = Except.ok (v, t) → t.pos = s.pos + 16) := by
  have h8 := sGetU8Bang_spec s hb (by omega)
  have h32 := bangRead_spec 4 (by omega) sGetU32Bang (fun _ => rfl) s hb (by omega)
  have hf := bangRead_spec 4 (by omega) sGetFloatBang (fun _ => rfl) s hb (by omega)
  have hd := bangRead_spec 8 (by omega) sGetDoubleBang (fun _ => rfl) s hb (by omega)
  have hl := bangRead_spec 16 (by omega) sGetLongDoubleBang (fun _ => rfl) s hb hU
  exact ⟨h8.1, fun v t ht => (h8.2 v t ht).1,
    h32.1, fun v t ht => (h32.2 v t ht).1,
    hf.1, fun v t ht => (hf.2 v t ht).1,
    hd.1, fun v t ht => (hd.2 v t ht).1,
    hl.1, fun v t ht => (hl.2 v t ht).1⟩

theorem c9_witness :
    exReadable.stream = false ∧
    ((∃ r, sGetLongDoubleBang exReadable = Except.ok r) ↔
      exReadable.pos + 16 ≤ exReadable.size) :=
  ⟨by decide, (c9_fixed_width_reads exReadable (by decide)
    (by decide)).2.2.2.2.2.2.2.2.1⟩

lemma sReadStream_eq (s : Buf) (endv : Nat) :
    sReadStream s endv =
      if (sReadLoopAux s.source s endv).1 = true then
        (true, { (sReadLoopAux s.source s endv).2.1 with pos := s.pos },
          (sReadLoopAux s.source s endv).2.2)
      else sReadLoopAux s.source s endv := rfl

/-- C3: on a bounded buffer, `s_get_p_at_pos(s, offset, length)` with
`offset + length ≥ size` raises the range error annotated with the offset,
the length and the current size; with `offset + length < size` it returns
with the whole state (hence `pos`) unchanged and the region
`data[offset..offset+length)` fully valid.  On a streaming buffer the same
out-of-range request instead pulls from the source up to
`offset + length + 1` and raises only if the pull fails. -/
theorem c3_bounds_guard (s : Buf) (off len : Nat)
    (h1 : s.data.length = s.size) (hU : off + len + 1 < U32) :
    (s.stream = false →
      (off + len < s.size →
        sGetPAtPos s off len = Except.ok (off, s) ∧
        ((s.data.drop off).take len).length = len) ∧
      (s.size ≤ off + len →
        sGetPAtPos s off len = Except.error (BufErr.outOfRange off len s.size))) ∧
    (s.stream = true → s.size ≤ off + len →
      ((sReadStream s (off + len + 1)).1 = true →
        sGetPAtPos s off len =
          Except.ok (off, (sReadStream s (off + len + 1)).2.1)) ∧
      ((sReadStream s (off + len + 1)).1 = false →
        sGetPAtPos s off len = Except.error (BufErr.streamFailed len))) := by
  have hmod : (off + len) % U32 = off + len := umod_small (by omega)
  have hmod1 : (off + len + 1) % U32 = off + len + 1 := umod_small hU
  constructor
  · intro hb
    have hg := sGetPAtPos_bounded s off len hb (by omega)
    constructor
    · intro hin
      rw [hg, if_neg (by omega)]
      refine ⟨rfl, ?_⟩
      simp only [List.length_take, List.length_drop, h1]
      omega
    · intro hout
      rw [hg, if_pos hout]
  · intro hs hout
    constructor
    · intro hok
      unfold sGetPAtPos
      rw [hmod, if_pos hout, hs, hmod1]
      simp [sReadStream_eq] at hok ⊢
      simp [hok]
    · intro hbad
      unfold sGetPAtPos
      rw [hmod, if_pos hout, hs, hmod1]
      simp [sReadStream_eq] at hbad ⊢
      simp [hbad]

theorem c3_witness :
    exBounded.data.length = exBounded.size ∧
    (0 + 2 < exBounded.size →
      sGetPAtPos exBounded 0 2 = Except.ok (0, exBounded) ∧
      ((exBounded.data.drop 0).take 2).length = 2) :=
  ⟨by decide, ((c3_bounds_guard exBounded 0 2 (by decide) (by decide)).1
    (by decide)).1⟩

/-- C4 counterexample: with a source that yields one byte and then fails,
filling to 2 bytes aborts, and the aborted fill does NOT restore the saved
cursor: `pos` ends at 1 (advanced by the one successful append), not at the
saved 0. -/
theorem c4_counterexample :
    (sReadStream exStreamFail 2).1 = false ∧
    (sReadStream exStreamFail 2).2.1.pos ≠ exStreamFail.pos ∧
    (sReadStream exStreamFail 2).2.1.size = 1 := by
  exact ⟨by decide, by decide, by decide⟩

/-- C4 (amended): `s_read_stream` saves `pos` before the loop and restores
it only when the fill succeeds; on an aborted fill the early `return -1`
skips the restore, leaving `pos` advanced by exactly the number of bytes
the partial appends added.  In both outcomes the bytes already appended are
retained (`size` is not rolled back and the old data is a prefix of the new
data). -/
theorem c4_stream_fill (s : Buf) (endv : Nat) (h1 : s.data.length = s.size)
    (h2 : s.pos ≤ s.size) (h3 : endv < U32) :
    ((sReadStream s endv).1 = true →
      (sReadStream s endv).2.1.pos = s.pos ∧
      s.size ≤ (sReadStream s endv).2.1.size ∧
      (sReadStream s endv).2.1.data.take s.size = s.data) ∧
    ((sReadStream s endv).1 = false →
      (sReadStream s endv).2.1.pos =
        s.pos + ((sReadStream s endv).2.1.size - s.size) ∧
      s.size ≤ (sReadStream s endv).2.1.size ∧
      (sReadStream s endv).2.1.data.take s.size = s.data) := by
  obtain ⟨i1, i2, i3, i4, i5, i6⟩ := sReadLoopAux_spec s.source s endv h1 h2 h3
  rw [sReadStream_eq]
  by_cases hr : (sReadLoopAux s.source s endv).1 = true
  · rw [if_pos hr]
    dsimp only
    constructor
    · intro _
      exact ⟨rfl, i2, i5⟩
    · intro h
      simp at h
  · rw [if_neg hr]
    constructor
    · intro h
      exact absurd h hr
    · intro _
      exact ⟨i4, i2, i5⟩

theorem c4_witness :
    exStreamOk.pos ≤ exStreamOk.size ∧
    ((sReadStream exStreamOk 2).1 = true →
      (sReadStream exStreamOk 2).2.1.pos = exStreamOk.pos ∧
      exStreamOk.size ≤ (sReadStream exStreamOk 2).2.1.size ∧
      (sReadStream exStreamOk 2).2.1.data.take exStreamOk.size =
        exStreamOk.data) :=
  ⟨by decide, (c4_stream_fill exStreamOk 2 (by decide) (by decide)
    (by decide)).1⟩

/-- C10 counterexample: in the first fill iteration of an empty streaming
buffer with target 1, `req = 1 > size - req` (as integers, `0 - 1 < 1`),
yet the scratch allocation `size - req` in u32 wraps to `2^32 - 1`, which
is NOT smaller than the `req = 1` bytes the read may write — it is vastly
larger.  The ghost trace confirms the loop requests exactly that size. -/
theorem c10_counterexample :
    ((0 : Int) - 1 < 1) ∧ scratchAlloc 0 1 = 4294967295 ∧
    ¬ scratchAlloc 0 1 < 1 ∧
    (sReadStream exStreamFail 1).2.2 = [4294967295] := by
  exact ⟨by decide, by decide, by decide, by decide⟩

/-- C10 (amended): each iteration of the fill loop allocates its scratch
buffer with byte count `size - req` computed in unsigned 32-bit arithmetic
(not `req`): when `req ≤ size` this is the plain difference, and if
moreover `req > size - req` the allocation is smaller than the `req` bytes
the read call may write; when `req > size` the value wraps modulo `2^32`
to `size + 2^32 - req` (which can be far larger than `req`, as the
counterexample shows).  The final conjunct grounds the formula in the
loop: the first scratch request of any iteration is exactly
`scratchAlloc size req`. -/
theorem c10_scratch_alloc (sz req : Nat) (h1 : sz < U32) (h2 : req < U32) :
    (req ≤ sz → scratchAlloc sz req = sz - req) ∧
    (sz < req → scratchAlloc sz req = sz + (U32 - req)) ∧
    (req ≤ sz → sz < 2 * req → scratchAlloc sz req < req) ∧
    (∀ (s : Buf) (endv : Nat) (c : List Nat) (rest : List (List Nat)),
      s.size = sz → endv - s.size = req → s.size < endv → s.source = c :: rest →
      (sReadLoopAux s.source s endv).2.2.head? = some (scratchAlloc sz req)) := by
  refine ⟨fun h => usub_of_le h h1, fun h => usub_of_lt h h2, ?_, ?_⟩
  · intro h hh
    unfold scratchAlloc
    rw [usub_of_le h h1]
    omega
  · intro s endv c rest hsz hreq hlt hsrc
    subst hsz
    subst hreq
    rw [hsrc]
    unfold sReadLoopAux
    rw [if_pos hlt]
    dsimp only
    by_cases hc : (c.take (endv - s.size)).length = 0
    · rw [if_pos hc]
      rfl
    · rw [if_neg hc]
      rfl

theorem c10_witness :
    (3 : Nat) ≤ 4 ∧ scratchAlloc 4 3 < 3 :=
  ⟨by decide, (c10_scratch_alloc 4 3 (by decide) (by decide)).2.2.1
    (by decide) (by decide)⟩

lemma inv_of_read {s s1 : Buf} {w : Nat} (hr : s.size ≤ s.rsize)
    (hd : s.data.length = s.size) (hs : s.stream = false)
    (hple : s.pos + w ≤ s.size) (e1 : s1.pos = s.pos + w) (e2 : s1.size = s.size)
    (e3 : s1.data = s.data) (e4 : s1.rsize = s.rsize) (e5 : s1.stream = s.stream) :
    s1.pos ≤ s1.size ∧ s1.size ≤ s1.rsize ∧ s1.data.length = s1.size ∧
    s1.stream = false :=
  ⟨by omega, by omega, by rw [e3, e2, hd], by rw [e5, hs]⟩

/-- The cursor invariant `pos ≤ size ≤ rsize` (with well-formed data and
bounded mode) is preserved by every successful run of append and cursor
typed-read operations, given enough u32 headroom for the appended bytes. -/
lemma run_inv (ops : List Op) : ∀ (s : Buf),
    s.pos ≤ s.size → s.size ≤ s.rsize → s.data.length = s.size →
    s.stream = false → (∀ op ∈ ops, cursorOp op = true) →
    s.size + appendTotal ops + 512 < U32 →
    ∀ t, run s ops = some t →
    t.pos ≤ t.size ∧ t.size ≤ t.rsize ∧ t.data.length = t.size ∧
    t.stream = false := by
  induction ops with
  | nil =>
    intro s hp hr hd hs _ _ t ht
    simp only [run, Option.some.injEq] at ht
    subst ht
    exact ⟨hp, hr, hd, hs⟩
  | cons op rest ih =>
    intro s hp hr hd hs hc hb t ht
    have hcop : cursorOp op = true := hc op (List.mem_cons_self op rest)
    have hcrest : ∀ o ∈ rest, cursorOp o = true :=
      fun o ho => hc o (List.mem_cons_of_mem op ho)
    simp only [run] at ht
    cases op with
    | append bs =>
      simp only [step] at ht
      simp only [appendTotal] at hb
      have h2 : s.size + bs.length < U32 := by omega
      have h3 : s.pos + bs.length < U32 := by omega
      have hdata := sAppend_data s bs hd
      have hsize := sAppend_size s bs h2
      have hpos := sAppend_pos s bs h3
      have hrs := sAppend_rsize_ge s bs (by omega)
      have hstr := sAppend_stream s bs
      exact ih (sAppend s bs) (by omega) (by omega)
        (by rw [hdata, List.length_append, hd, hsize])
        (by rw [hstr, hs]) hcrest (by omega) t ht
    | readU8 =>
      simp only [appendTotal] at hb
      cases hu : sGetU8Bang s with
      | error e => simp [step, hu] at ht
      | ok r =>
        obtain ⟨v, s1⟩ := r
        simp only [step, hu] at ht
        have spec := sGetU8Bang_spec s hs (by omega)
        have hle : s.pos + 1 ≤ s.size := spec.1.mp ⟨(v, s1), hu⟩
        obtain ⟨e1, e2, e3, e4, e5⟩ := spec.2 v s1 hu
        obtain ⟨j1, j2, j3, j4⟩ := inv_of_read hr hd hs hle e1 e2 e3 e4 e5
        exact ih s1 j1 j2 j3 j4 hcrest (by omega) t ht
    | readU32 =>
      simp only [appendTotal] at hb
      cases hu : sGetU32Bang s with
      | error e => simp [step, hu] at ht
      | ok r =>
        obtain ⟨v, s1⟩ := r
        simp only [step, hu] at ht
        have spec := bangRead_spec 4 (by omega) sGetU32Bang (fun _ => rfl) s hs
          (by omega)
        have hle : s.pos + 4 ≤ s.size := spec.1.mp ⟨(v, s1), hu⟩
        obtain ⟨e1, e2, e3, e4, e5⟩ := spec.2 v s1 hu
        obtain ⟨j1, j2, j3, j4⟩ := inv_of_read hr hd hs hle e1 e2 e3 e4 e5
        exact ih s1 j1 j2 j3 j4 hcrest (by omega) t ht
    | readF32 =>
      simp only [appendTotal] at hb
      cases hu : sGetFloatBang s with
      | error e => simp [step, hu] at ht
      | ok r =>
        obtain ⟨v, s1⟩ := r
        simp only [step, hu] at ht
        have spec := bangRead_spec 4 (by omega) sGetFloatBang (fun _ => rfl) s hs
          (by omega)
        have hle : s.pos + 4 ≤ s.size := spec.1.mp ⟨(v, s1), hu⟩
        obtain ⟨e1, e2, e3, e4, e5⟩ := spec.2 v s1 hu
        obtain ⟨j1, j2, j3, j4⟩ := inv_of_read hr hd hs hle e1 e2 e3 e4 e5
        exact ih s1 j1 j2 j3 j4 hcrest (by omega) t ht
    | readF64 =>
      simp only [appendTotal] at hb
      cases hu : sGetDoubleBang s with
      | error e => simp [step, hu] at ht
      | ok r =>
        obtain ⟨v, s1⟩ := r
        simp only [step, hu] at ht
        have spec := bangRead_spec 8 (by omega) sGetDoubleBang (fun _ => rfl) s hs
          (by omega)
        have hle : s.pos + 8 ≤ s.size := spec.1.mp ⟨(v, s1), hu⟩
        obtain ⟨e1, e2, e3, e4, e5⟩ := spec.2 v s1 hu
        obtain ⟨j1, j2, j3, j4⟩ := inv_of_read hr hd hs hle e1 e2 e3 e4 e5
        exact ih s1 j1 j2 j3 j4 hcrest (by omega) t ht
    | readLD =>
      simp only [appendTotal] at hb
      cases hu : sGetLongDoubleBang s with
      | error e => simp [step, hu] at ht
      | ok r =>
        obtain ⟨v, s1⟩ := r
        simp only [step, hu] at ht
        have spec := bangRead_spec 16 (by omega) sGetLongDoubleBang (fun _ => rfl)
          s hs (by omega)
        have hle : s.pos + 16 ≤ s.size := spec.1.mp ⟨(v, s1), hu⟩
        obtain ⟨e1, e2, e3, e4, e5⟩ := spec.2 v s1 hu
        obtain ⟨j1, j2, j3, j4⟩ := inv_of_read hr hd hs hle e1 e2 e3 e4 e5
        exact ih s1 j1 j2 j3 j4 hcrest (by omega) t ht
    | readAt off len => simp [cursorOp] at hcop
    | shift n => simp [cursorOp] at hcop
    | compact => simp [cursorOp] at hcop

/-- C1 counterexample: the invariant `pos ≤ size` does not survive every
operation sequence from the empty buffer: a single `shiftCursor(1)`
(one of the reads the claim includes) leaves `pos = 1 > size = 0`. -/
theorem c1_counterexample :
    run mkEmpty [Op.shift 1] = some (⟨[], 0, 0, 1, false, []⟩ : Buf) ∧
    ¬ ((⟨[], 0, 0, 1, false, []⟩ : Buf).pos ≤ (⟨[], 0, 0, 1, false, []⟩ : Buf).size) := by
  exact ⟨by decide, by decide⟩

/-- C1 (amended): `pos ≤ size ≤ capacity` holds after every call for
sequences of append and fixed-width cursor reads, starting from any state
satisfying it — in particular from the just-created empty buffer — with
u32 headroom for the appended bytes.  It is not an invariant of the full
operation set: `shiftCursor` advances `pos` unconditionally
(counterexample), compaction does not reset `pos`, and the arbitrary-offset
advancing read adds `len` to `pos` irrespective of the checked offset. -/
theorem c1_invariant (ops : List Op) (s : Buf)
    (hp : s.pos ≤ s.size) (hr : s.size ≤ s.rsize) (hd : s.data.length = s.size)
    (hs : s.stream = false) (hc : ∀ op ∈ ops, cursorOp op = true)
    (hb : s.size + appendTotal ops + 512 < U32) (t : Buf)
    (ht : run s ops = some t) :
    t.pos ≤ t.size ∧ t.size ≤ t.rsize := by
  obtain ⟨a, b, _, _⟩ := run_inv ops s hp hr hd hs hc hb t ht
  exact ⟨a, b⟩

theorem c1_witness :
    (∀ op ∈ [Op.readU8, Op.append [7], Op.readU32], cursorOp op = true) ∧
    ((⟨[1, 2, 3, 4, 5, 7], 6, 518, 6, false, []⟩ : Buf).pos ≤
        (⟨[1, 2, 3, 4, 5, 7], 6, 518, 6, false, []⟩ : Buf).size ∧
      (⟨[1, 2, 3, 4, 5, 7], 6, 518, 6, false, []⟩ : Buf).size ≤
        (⟨[1, 2, 3, 4, 5, 7], 6, 518, 6, false, []⟩ : Buf).rsize) :=
  ⟨by decide, c1_invariant [Op.readU8, Op.append [7], Op.readU32] exBounded
    (by decide) (by decide) (by decide) (by decide) (by decide) (by decide)
    (⟨[1, 2, 3, 4, 5, 7], 6, 518, 6, false, []⟩ : Buf) (by decide)⟩

end Sereal
